import Mathlib

set_option maxRecDepth 40000

/-!
Verification development for a small PXE network-boot server written in Rust,
consisting of a DHCP datagram codec (`dhcp/src/lib.rs`), a PXE vendor-option
builder (`pxe/src/lib.rs`), a TFTP file server (`tftp/src/lib.rs`) and the
DHCP responder (`src/main.rs`).

Byte strings are modelled as `List Nat`, each element one octet.  Machine
integer truncation (`as u8`, `u16` wrap-around) is written explicitly as
`% 256` / `% 65536`.  The `#[repr(packed)]` struct `DHCPBody` is modelled as a
record holding, for each field, exactly the bytes of its in-memory
representation (multi-octet fields as byte lists in memory order), so that the
`mem::transmute` in `from_bytes`/`as_bytes` becomes slicing/concatenation.
-/

/-- ASCII bytes of a string literal (Rust `str::as_bytes`). -/
def strBytes (s : String) : List Nat := s.toList.map Char.toNat

/-- Embeds `DHCPOption(pub u8, pub u8, pub Vec<u8>)`: option code, stored length
byte, value octets. -/
structure DHCPOption where
  code : Nat
  len : Nat
  value : List Nat
deriving DecidableEq, Repr

/-- The packed BOOTP header struct `DHCPBody`.  `op`..`hops` are single
octets; all remaining fields are kept as their raw in-memory byte lists
(`xid` 4, `secs` 2, `flags` 2, the four addresses 4 each, `chaddr` 16,
`sname` 64, `filename` 128, `mcookie` 4). -/
structure DHCPBody where
  op : Nat
  htype : Nat
  hlen : Nat
  hops : Nat
  xid : List Nat
  secs : List Nat
  flags : List Nat
  ciaddr : List Nat
  yiaddr : List Nat
  siaddr : List Nat
  giaddr : List Nat
  chaddr : List Nat
  sname : List Nat
  filename : List Nat
  mcookie : List Nat
deriving DecidableEq, Repr

/-- Embeds `mem::size_of::<DHCPBody>()` for the `#[repr(packed)]` struct:
4 + 4 + 2 + 2 + 4*4 + 16 + 64 + 128 + 4 = 240 octets (the 236 BOOTP bytes
plus the 4-byte magic cookie field). -/
def dhcpBodySize : Nat := 240

/-- The `mem::transmute` of a 240-byte buffer into `DHCPBody`: each field
takes the octets at its packed offset. -/
def bodyFromBytes (b : List Nat) : DHCPBody where
  op := b.getD 0 0
  htype := b.getD 1 0
  hlen := b.getD 2 0
  hops := b.getD 3 0
  xid := (b.drop 4).take 4
  secs := (b.drop 8).take 2
  flags := (b.drop 10).take 2
  ciaddr := (b.drop 12).take 4
  yiaddr := (b.drop 16).take 4
  siaddr := (b.drop 20).take 4
  giaddr := (b.drop 24).take 4
  chaddr := (b.drop 28).take 16
  sname := (b.drop 44).take 64
  filename := (b.drop 108).take 128
  mcookie := (b.drop 236).take 4

/-- The `mem::transmute` of a `DHCPBody` back into its 240 in-memory bytes. -/
def DHCPBody.toBytes (d : DHCPBody) : List Nat :=
  d.op :: d.htype :: d.hlen :: d.hops ::
    (d.xid ++ d.secs ++ d.flags ++ d.ciaddr ++ d.yiaddr ++ d.siaddr ++
     d.giaddr ++ d.chaddr ++ d.sname ++ d.filename ++ d.mcookie)

/-- Embeds `read_options` (dhcp/src/lib.rs lines 144-178): the index-based loop over
the option region, translated to structural recursion on the unconsumed
suffix.  A `0x00` byte is a pad (one octet, stored as code 0 / len 0); any
other byte is an option code whose next octet is the length `L`; if fewer
than `L` value octets remain the loop stops, otherwise the option is stored
and `L + 2` octets are consumed.  A trailing lone non-pad code byte (no
length octet) stops the loop. -/
def read_options : List Nat → List DHCPOption
  | [] => []
  | [c] => if c = 0 then [⟨0, 0, []⟩] else []
  | c :: len :: rest =>
    if c = 0 then
      ⟨0, 0, []⟩ :: read_options (len :: rest)
    else if len ≤ rest.length then
      ⟨c, len, rest.take len⟩ :: read_options (rest.drop len)
    else []
termination_by l => l.length
decreasing_by
  · simp
  · simp [List.length_drop]; omega

/-- One option as emitted by `DHCPDgram::as_bytes`: code byte, stored length
byte, then the value octets. -/
def serializeOption (o : DHCPOption) : List Nat := o.code :: o.len :: o.value

/-- Embeds `DHCPDgram`: fixed body plus ordered option list. -/
structure DHCPDgram where
  body : DHCPBody
  options : List DHCPOption
deriving DecidableEq, Repr

/-- Embeds `DHCPDgram::from_bytes` (dhcp/src/lib.rs lines 54-73): fails iff fewer
than `size_of::<DHCPBody>()` = 240 bytes; otherwise transmutes the first 240
bytes into the body and parses the remainder with `read_options`. -/
def DHCPDgram.from_bytes (bytes : List Nat) : Option DHCPDgram :=
  if bytes.length < dhcpBodySize then none
  else
    some { body := bodyFromBytes (bytes.take dhcpBodySize),
           options := read_options (bytes.drop dhcpBodySize) }

/-- Embeds `DHCPDgram::as_bytes` (dhcp/src/lib.rs lines 75-89): body bytes followed
by `code, len, value` for every stored option, in order. -/
def DHCPDgram.as_bytes (d : DHCPDgram) : List Nat :=
  d.body.toBytes ++ d.options.flatMap serializeOption

/-- Embeds `DHCPDgram::option`: value of the first option with the given code. -/
def DHCPDgram.option (d : DHCPDgram) (id : Nat) : Option (List Nat) :=
  (d.options.find? (fun o => o.code == id)).map (fun o => o.value)

/-- Embeds `DHCPDgramBuilder`. -/
structure DHCPDgramBuilder where
  dhcp : Option DHCPBody
  options : List DHCPOption

/-- Embeds `DHCPDgramBuilder::option`: pushes `DHCPOption(code, data.len() as u8,
data)`; the `as u8` cast truncates the stored length modulo 256. -/
def DHCPDgramBuilder.option (b : DHCPDgramBuilder) (code : Nat) (data : List Nat) :
    DHCPDgramBuilder :=
  { b with options := b.options ++ [⟨code, data.length % 256, data⟩] }

/-- Embeds `DHCPDgramBuilder::body`. -/
def DHCPDgramBuilder.body (b : DHCPDgramBuilder) (dhcp : DHCPBody) : DHCPDgramBuilder :=
  { b with dhcp := some dhcp }

/-- Embeds `DHCPDgramBuilder::end`: appends the 0xFF marker (`end` is a reserved
word in Lean, hence the name). -/
def DHCPDgramBuilder.endMarker (b : DHCPDgramBuilder) : DHCPDgramBuilder :=
  b.option 255 []

/-- Embeds `DHCPDgramBuilder::build`: a datagram iff a body was set. -/
def DHCPDgramBuilder.build (b : DHCPDgramBuilder) : Option DHCPDgram :=
  b.dhcp.map (fun body => { body := body, options := b.options })

/-- Embeds `PXEOption { code: u8, data: Vec<u8> }`. -/
structure PXEOption where
  code : Nat
  data : List Nat
deriving DecidableEq, Repr

/-- Embeds `PXEOption::len`: `data.len() as u8`, truncating modulo 256. -/
def PXEOption.len (o : PXEOption) : Nat := o.data.length % 256

/-- Embeds `PXEBuilder`. -/
structure PXEBuilder where
  options : List PXEOption
deriving DecidableEq, Repr

/-- Embeds `PXEBuilder::option`: push a sub-option. -/
def PXEBuilder.option (b : PXEBuilder) (tag : Nat) (data : List Nat) : PXEBuilder :=
  ⟨b.options ++ [⟨tag, data⟩]⟩

/-- Embeds `PXEBuilder::start`: sub-option 6 (PXE_DISCOVERY_CONTROL), one byte
`0b00000110 | ((!discover as u8) << 3)`. -/
def PXEBuilder.start (b : PXEBuilder) (discover : Bool) : PXEBuilder :=
  b.option 6 [6 ||| ((if discover then 0 else 1) <<< 3)]

/-- Embeds `PXEBuilder::end`: sub-option 255 with empty data. -/
def PXEBuilder.endMarker (b : PXEBuilder) : PXEBuilder :=
  b.option 255 []

/-- Embeds `PXEBuilder::boot_servers`: sub-option 8 with value
`[0, 0, ips.len() as u8]` followed by the 4 octets of each address. -/
def PXEBuilder.boot_servers (b : PXEBuilder) (ips : List (List Nat)) : PXEBuilder :=
  b.option 8 ([0, 0, ips.length % 256] ++ ips.flatten)

/-- Embeds `PXEBuilder::build` (pxe/src/lib.rs lines 74-90): each sub-option emits
`code, len, data`, except that code 0xFF emits no length byte. -/
def PXEBuilder.build (b : PXEBuilder) : List Nat :=
  b.options.flatMap
    (fun o => if o.code = 255 then o.code :: o.data else o.code :: o.len :: o.data)

/-- "PXEServer" as bytes. -/
def pxeServerName : List Nat := strBytes "PXEServer"

/-- "pxelinux.0" as bytes. -/
def bootfileName : List Nat := strBytes "pxelinux.0"

/-- "PXEClient" as bytes. -/
def pxeClientId : List Nat := strBytes "PXEClient"

/-- The `copy_string` closure in `discover` (src/main.rs lines 94-99): zip
the target with the string bytes and overwrite position-wise, leaving any
remainder of the target unchanged. -/
def copy_string (s : List Nat) (target : List Nat) : List Nat :=
  s.take target.length ++ target.drop s.length

/-- Embeds `discover` (src/main.rs lines 93-120): build the OFFER for a DISCOVER.
`addr` is the server's IPv4 octets. -/
def discover (addr : List Nat) (dhcp : DHCPDgram) : Option DHCPDgram :=
  let body : DHCPBody :=
    { dhcp.body with
        op := 2,
        sname := copy_string pxeServerName dhcp.body.sname,
        filename := copy_string bootfileName dhcp.body.filename }
  let pxe := ((((PXEBuilder.mk []).start false).boot_servers [addr]).endMarker).build
  (((((((DHCPDgramBuilder.mk none []).body body).option 53 [2]).option 54 addr).option
      60 pxeClientId).option 43 pxe).endMarker).build

/-- Embeds `TFTPTransfer`: block counter (u16), negotiated block size (u16), done
flag and the open file, modelled by the not-yet-read suffix of its
contents (`File::read` hands out the next bytes in order). -/
structure TFTPTransfer where
  block_cnt : Nat
  block_sz : Nat
  done : Bool
  file : List Nat
deriving DecidableEq, Repr

/-- Embeds `TFTPTransfer::next_block` (tftp/src/lib.rs lines 57-72): `None` when
done; otherwise read up to `block_sz` bytes, increment `block_cnt` with u16
wrap-around, set `done` iff the read was short, and return the read bytes. -/
def TFTPTransfer.next_block (t : TFTPTransfer) : Option (List Nat) × TFTPTransfer :=
  if t.done then (none, t)
  else
    let bytes_read := min t.block_sz t.file.length
    (some (t.file.take bytes_read),
     { t with
        block_cnt := (t.block_cnt + 1) % 65536,
        done := bytes_read != t.block_sz,
        file := t.file.drop bytes_read })

/-- Embeds `TFTP::data`: `[0x00, 0x03, hi, lo]` then the payload. -/
def TFTP.data (block : Nat) (bytes : List Nat) : List Nat :=
  [0, 3, block / 256 % 256, block % 256] ++ bytes

/-- Embeds `TFTP::error`: `[0x00, 0x05, hi, lo]`, the message bytes, then a NUL. -/
def TFTP.error (code : Nat) (msg : List Nat) : List Nat :=
  [0, 5, code / 256 % 256, code % 256] ++ msg ++ [0]

/-- Embeds `TFTPServer`: the `HashMap<SocketAddr, TFTPTransfer>` as an association
list keyed by the remote endpoint (modelled as a `Nat`). -/
structure TFTPServer where
  transfers : List (Nat × TFTPTransfer)
deriving DecidableEq, Repr

/-- Embeds `TFTPServer::send_next` (tftp/src/lib.rs lines 136-149).  The `Err`
result of the Rust function (a transfer whose `done` was observed) is
modelled as `none`; an `Ok(bytes)` reply as `some bytes`. -/
def TFTPServer.send_next (srv : TFTPServer) (dst : Nat) :
    Option (List Nat) × TFTPServer :=
  let is_done := ((List.lookup dst srv.transfers).map TFTPTransfer.done).getD false
  if is_done then
    (none, ⟨srv.transfers.filter (fun p => p.1 != dst)⟩)
  else
    match List.lookup dst srv.transfers with
    | none => (some (TFTP.error 2 (strBytes "Unable to read next block.")), srv)
    | some t =>
      match t.next_block with
      | (some blk, t2) =>
        (some (TFTP.data t2.block_cnt blk),
         ⟨srv.transfers.map (fun p => if p.1 = dst then (dst, t2) else p)⟩)
      | (none, t2) =>
        (some (TFTP.error 2 (strBytes "Unable to read next block.")),
         ⟨srv.transfers.map (fun p => if p.1 = dst then (dst, t2) else p)⟩)

/-- The `Some(&TFTP::ACK)` arm of `TFTPServer::listen` (tftp/src/lib.rs
lines 121-133): the ACK reply is `send_next`'s `Ok` value; an `Err` from
`send_next` propagates through the `?` operator past the `send_to` call, so
no packet is sent (reply `none`), and `start` discards the error. -/
def TFTPServer.listen_ack (srv : TFTPServer) (sender : Nat) :
    TFTPServer × Option (List Nat) :=
  match srv.send_next sender with
  | (some bytes, srv2) => (srv2, some bytes)
  | (none, srv2) => (srv2, none)

/-- Repeatedly ACK a transfer: the stream of `(block_cnt, payload)` pairs
produced by `fuel` successive calls to `next_block`, stopping at the first
`None`, together with the final transfer state. -/
def pump : TFTPTransfer → Nat → List (Nat × List Nat) × TFTPTransfer
  | t, 0 => ([], t)
  | t, fuel + 1 =>
    match t.next_block with
    | (some blk, t2) =>
      let r := pump t2 fuel
      ((t2.block_cnt, blk) :: r.1, r.2)
    | (none, _) => ([], t)

/-- The slices of a file a TFTP transfer with block size `sz` serves: full
`sz`-byte slices, with a final short (possibly empty) slice. -/
def chunks (sz : Nat) (l : List Nat) : List (List Nat) :=
  if _h : sz = 0 ∨ l.length < sz then [l]
  else l.take sz :: chunks sz (l.drop sz)
termination_by l.length
decreasing_by simp [List.length_drop]; omega


/-- Adjacent slices concatenate: the `m`-byte slice at offset `i` followed by
the rest from offset `i + m`. -/
theorem slice_chain (l : List Nat) (i m j : Nat) (h : i + m = j) :
    (l.drop i).take m ++ l.drop j = l.drop i := by
  subst h
  conv_lhs => rw [← List.drop_drop]
  exact List.take_append_drop m (l.drop i)

/-- Embeds `from_bytes` on an input of at least 240 bytes, unfolded. -/
theorem from_bytes_eq_of_le (b : List Nat) (h : 240 ≤ b.length) :
    DHCPDgram.from_bytes b =
      some ⟨bodyFromBytes (b.take 240), read_options (b.drop 240)⟩ := by
  unfold DHCPDgram.from_bytes dhcpBodySize
  rw [if_neg (Nat.not_lt.mpr h)]

/-- Embeds `from_bytes` on an input of fewer than 240 bytes, unfolded. -/
theorem from_bytes_eq_of_lt (b : List Nat) (h : b.length < 240) :
    DHCPDgram.from_bytes b = none := by
  unfold DHCPDgram.from_bytes dhcpBodySize
  rw [if_pos h]

/-- Transmuting 240 bytes into a `DHCPBody` and back is the identity. -/
theorem bodyFromBytes_toBytes (l : List Nat) (h : l.length = 240) :
    (bodyFromBytes l).toBytes = l := by
  rcases l with _ | ⟨a, _ | ⟨b, _ | ⟨c, _ | ⟨d, rest⟩⟩⟩⟩ <;>
      simp only [List.length_cons, List.length_nil] at h <;> try omega
  have hr : rest.length = 236 := by omega
  have g0 : (a :: b :: c :: d :: rest).getD 0 0 = a := rfl
  have g1 : (a :: b :: c :: d :: rest).getD 1 0 = b := rfl
  have g2 : (a :: b :: c :: d :: rest).getD 2 0 = c := rfl
  have g3 : (a :: b :: c :: d :: rest).getD 3 0 = d := rfl
  have d4 : (a :: b :: c :: d :: rest).drop 4 = rest := rfl
  have d8 : (a :: b :: c :: d :: rest).drop 8 = rest.drop 4 := rfl
  have d10 : (a :: b :: c :: d :: rest).drop 10 = rest.drop 6 := rfl
  have d12 : (a :: b :: c :: d :: rest).drop 12 = rest.drop 8 := rfl
  have d16 : (a :: b :: c :: d :: rest).drop 16 = rest.drop 12 := rfl
  have d20 : (a :: b :: c :: d :: rest).drop 20 = rest.drop 16 := rfl
  have d24 : (a :: b :: c :: d :: rest).drop 24 = rest.drop 20 := rfl
  have d28 : (a :: b :: c :: d :: rest).drop 28 = rest.drop 24 := rfl
  have d44 : (a :: b :: c :: d :: rest).drop 44 = rest.drop 40 := rfl
  have d108 : (a :: b :: c :: d :: rest).drop 108 = rest.drop 104 := rfl
  have d236 : (a :: b :: c :: d :: rest).drop 236 = rest.drop 232 := rfl
  simp only [bodyFromBytes, DHCPBody.toBytes]
  rw [g0, g1, g2, g3, d4, d8, d10, d12, d16, d20, d24, d28, d44, d108, d236]
  congr 1
  congr 1
  congr 1
  congr 1
  simp only [List.append_assoc]
  have t232 : (rest.drop 232).take 4 = rest.drop 232 :=
    List.take_of_length_le (by simp [hr])
  rw [t232, slice_chain rest 104 128 232 (by norm_num),
      slice_chain rest 40 64 104 (by norm_num),
      slice_chain rest 24 16 40 (by norm_num),
      slice_chain rest 20 4 24 (by norm_num),
      slice_chain rest 16 4 20 (by norm_num),
      slice_chain rest 12 4 16 (by norm_num),
      slice_chain rest 8 4 12 (by norm_num),
      slice_chain rest 6 2 8 (by norm_num),
      slice_chain rest 4 2 6 (by norm_num)]
  exact List.take_append_drop 4 rest

/-- Parsing the serialization of a list of in-bounds non-pad options recovers
exactly that list. -/
theorem read_options_serialize (opts : List DHCPOption)
    (h : ∀ o ∈ opts, o.code ≠ 0 ∧ o.len = o.value.length) :
    read_options (opts.flatMap serializeOption) = opts := by
  induction opts with
  | nil => simp [read_options]
  | cons o rest ih =>
    obtain ⟨hc, hl⟩ := h o (List.mem_cons_self o rest)
    have htail := ih (fun x hx => h x (List.mem_cons_of_mem o hx))
    simp only [List.flatMap_cons, serializeOption, List.cons_append]
    have harm : read_options
          (o.code :: o.len :: (o.value ++ rest.flatMap serializeOption))
        = ⟨o.code, o.len,
            (o.value ++ rest.flatMap serializeOption).take o.len⟩ ::
          read_options ((o.value ++ rest.flatMap serializeOption).drop o.len) := by
      simp only [read_options]
      rw [if_neg hc, if_pos (by rw [hl]; simp)]
    rw [harm, List.take_left' hl.symm, List.drop_left' hl.symm, htail]

/-- C1 (amended): for a 240-byte fixed part followed by an option region that
is a concatenation of well-formed non-pad options (each encoded as a code
byte other than 0x00, a length byte equal to its value length, and its
value), `from_bytes` succeeds and `as_bytes` reproduces the input exactly. -/
theorem dhcp_parse_serialize_roundtrip (bytes : List Nat) (opts : List DHCPOption)
    (hb : bytes.length = 240)
    (hw : ∀ o ∈ opts, o.code ≠ 0 ∧ o.len = o.value.length) :
    ∃ d, DHCPDgram.from_bytes (bytes ++ opts.flatMap serializeOption) = some d ∧
      d.as_bytes = bytes ++ opts.flatMap serializeOption := by
  refine ⟨⟨bodyFromBytes bytes, opts⟩, ?_, ?_⟩
  · rw [from_bytes_eq_of_le _ (by simp [List.length_append, hb]),
        List.take_left' hb, List.drop_left' hb, read_options_serialize opts hw]
  · show DHCPBody.toBytes (bodyFromBytes bytes) ++ _ = _
    rw [bodyFromBytes_toBytes bytes hb]

/-- C1 witness: a concrete 240-byte body followed by option 53 and the end
marker (with its length byte) round-trips. -/
theorem dhcp_parse_serialize_roundtrip_witness :
    ∃ d, DHCPDgram.from_bytes
          (List.replicate 240 0 ++
            [⟨53, 1, [1]⟩, ⟨255, 0, []⟩].flatMap serializeOption) = some d ∧
      d.as_bytes = List.replicate 240 0 ++
        [⟨53, 1, [1]⟩, ⟨255, 0, []⟩].flatMap serializeOption :=
  dhcp_parse_serialize_roundtrip (List.replicate 240 0) [⟨53, 1, [1]⟩, ⟨255, 0, []⟩]
    (by simp) (by decide)

/-- C1 counterexample: a 241-byte input whose option region is a single pad
byte satisfies the claim's premise (length at least 236, well-formed option
region), yet re-serializing its parse does not reproduce it: the pad byte is
stored as a (code 0, len 0) option and re-emitted as two bytes. -/
theorem dhcp_parse_serialize_roundtrip_ce :
    ∃ d, DHCPDgram.from_bytes (List.replicate 241 0) = some d ∧
      d.as_bytes ≠ List.replicate 241 0 := by
  have hb240 : (List.replicate 240 (0 : Nat)).length = 240 := by simp
  have hsplit : List.replicate 241 (0 : Nat) = List.replicate 240 0 ++ [0] := by
    rw [show (241 : Nat) = 240 + 1 from rfl, List.replicate_succ']
  refine ⟨⟨bodyFromBytes (List.replicate 240 0), [⟨0, 0, []⟩]⟩, ?_, ?_⟩
  · rw [hsplit, from_bytes_eq_of_le _ (by simp),
        List.take_left' hb240, List.drop_left' hb240]
    simp [read_options]
  · intro hcontra
    have hlen := congrArg List.length hcontra
    simp only [DHCPDgram.as_bytes] at hlen
    rw [bodyFromBytes_toBytes _ hb240] at hlen
    simp [serializeOption] at hlen

/-- C3 (amended): `from_bytes` fails exactly on inputs shorter than 240 bytes
(the size of the packed `DHCPBody`, i.e. the 236 BOOTP octets plus the 4-byte
magic cookie field); on longer inputs it interprets the first 240 octets as
the fixed fields and parses the rest as options. -/
theorem from_bytes_length_threshold (b : List Nat) :
    (b.length < 240 → DHCPDgram.from_bytes b = none) ∧
    (240 ≤ b.length →
      DHCPDgram.from_bytes b =
        some ⟨bodyFromBytes (b.take 240), read_options (b.drop 240)⟩) :=
  ⟨from_bytes_eq_of_lt b, from_bytes_eq_of_le b⟩

/-- C3 witness: a 236-byte input fails to parse; a 240-byte input parses. -/
theorem from_bytes_length_threshold_witness :
    DHCPDgram.from_bytes (List.replicate 236 0) = none ∧
    DHCPDgram.from_bytes (List.replicate 240 0) =
      some ⟨bodyFromBytes ((List.replicate 240 0).take 240),
            read_options ((List.replicate 240 0).drop 240)⟩ :=
  ⟨(from_bytes_length_threshold (List.replicate 236 0)).1 (by simp),
   (from_bytes_length_threshold (List.replicate 240 0)).2 (by simp)⟩

/-- C3 counterexample: the claim says a 236-byte input parses, but
`from_bytes` requires `mem::size_of::<DHCPBody>()` = 240 bytes and returns
`None` on 236 zero bytes. -/
theorem from_bytes_length_threshold_ce :
    DHCPDgram.from_bytes (List.replicate 236 0) = none :=
  from_bytes_eq_of_lt _ (by simp)

/-- C9: parsing is total beyond the fixed body: any input of at least
`size_of::<DHCPBody>()` = 240 bytes parses successfully, whatever the
contents of its option region. -/
theorem from_bytes_total (b : List Nat) (h : 240 ≤ b.length) :
    ∃ d, DHCPDgram.from_bytes b = some d :=
  ⟨⟨bodyFromBytes (b.take 240), read_options (b.drop 240)⟩, from_bytes_eq_of_le b h⟩

/-- C9 witness: 300 bytes of 0xFF (a garbage option region) still parse. -/
theorem from_bytes_total_witness :
    ∃ d, DHCPDgram.from_bytes (List.replicate 300 255) = some d :=
  from_bytes_total (List.replicate 300 255) (by simp)

/-- C7 (amended): the end marker 0xFF receives no special treatment, but that
means it is parsed like any ordinary option: it consumes a following length
byte `len` and `len` value octets, and is stored with that length when the
value fits in the region.  It is stored with length 0 exactly when its length
byte is 0x00; a 0xFF whose announced length overruns the region is not stored
and parsing stops, and a lone trailing 0xFF with no following length byte is
not stored at all. -/
theorem read_options_end_marker (len : Nat) (rest : List Nat) :
    (len ≤ rest.length →
      read_options (255 :: len :: rest)
        = ⟨255, len, rest.take len⟩ :: read_options (rest.drop len)) ∧
    (rest.length < len → read_options (255 :: len :: rest) = []) ∧
    read_options (255 :: 0 :: rest) = ⟨255, 0, []⟩ :: read_options rest ∧
    read_options [255] = [] := by
  refine ⟨?_, ?_, ?_, by simp [read_options]⟩
  · intro h
    simp only [read_options]
    rw [if_neg (by norm_num), if_pos h]
  · intro h
    simp only [read_options]
    rw [if_neg (by norm_num), if_neg (Nat.not_le.mpr h)]
  · simp only [read_options]
    rw [if_neg (by norm_num), if_pos (Nat.zero_le _)]
    simp

/-- C7 witness: concrete instances of the amended behaviour, including an
in-bounds 0xFF option, an overrunning one, a zero-length one and a lone
trailing one. -/
theorem read_options_end_marker_witness :
    read_options (255 :: 1 :: [7, 9])
      = ⟨255, 1, [7, 9].take 1⟩ :: read_options ([7, 9].drop 1) ∧
    read_options (255 :: 5 :: [1]) = [] ∧
    read_options (255 :: 0 :: [7, 9]) = ⟨255, 0, []⟩ :: read_options [7, 9] ∧
    read_options [255] = [] :=
  ⟨(read_options_end_marker 1 [7, 9]).1 (by norm_num),
   (read_options_end_marker 5 [1]).2.1 (by norm_num),
   (read_options_end_marker 1 [7, 9]).2.2.1,
   (read_options_end_marker 1 [7, 9]).2.2.2⟩

/-- C7 counterexample: a lone trailing 0xFF is dropped entirely (not stored
with length 0); a 0xFF announcing length 5 over a 1-byte remainder is also
dropped; and a 0xFF followed by the byte 0x02 is stored with length 2,
not 0. -/
theorem read_options_end_marker_ce :
    read_options [255] = [] ∧
    read_options [255, 5, 1] = [] ∧
    read_options [255, 2, 9, 9] = [⟨255, 2, [9, 9]⟩] := by
  refine ⟨by simp [read_options], ?_, ?_⟩
  · simp only [read_options]
    norm_num
  · have h2 : read_options ([] : List Nat) = [] := by simp [read_options]
    simp only [read_options]
    norm_num
    exact h2

/-- C6 (amended): each PXE sub-option is emitted as code, length, value,
except the end marker (code 255), which emits its code only, with no length
byte; `start(false)` emits `06 01 0e`; `boot_servers([192.168.1.103])` emits
`08 07 00 00 01 c0 a8 01 67` (length byte 7 = the seven value octets);
`end()` emits the single byte `ff`. -/
theorem pxe_build_encoding :
    (∀ (b : PXEBuilder) (o : PXEOption),
        PXEBuilder.build ⟨b.options ++ [o]⟩ =
          PXEBuilder.build b ++
            (if o.code = 255 then o.code :: o.data
             else o.code :: o.len :: o.data)) ∧
    ((PXEBuilder.mk []).start false).build = [6, 1, 14] ∧
    ((PXEBuilder.mk []).boot_servers [[192, 168, 1, 103]]).build
      = [8, 7, 0, 0, 1, 192, 168, 1, 103] ∧
    ((PXEBuilder.mk []).endMarker).build = [255] := by
  refine ⟨?_, by decide, by decide, by decide⟩
  intro b o
  simp [PXEBuilder.build]

/-- C6 counterexample: the length byte of the boot-servers sub-option for one
address is 0x07 (seven value octets: two type bytes, one count byte, four
address octets), not 0x08 as the claim's byte string states. -/
theorem pxe_build_encoding_ce :
    ((PXEBuilder.mk []).boot_servers [[192, 168, 1, 103]]).build
      ≠ [8, 8, 0, 0, 1, 192, 168, 1, 103] := by decide

/-- C8 (amended): for arbitrary data, the stored length field of an option
built through `DHCPDgramBuilder::option`, and `PXEOption::len` of any PXE
sub-option, is the value length truncated modulo 256 (`as u8`); it equals the
number of value octets whenever the data has at most 255 octets, and for any
data longer than 255 octets the wrapped length no longer equals the value
count. -/
theorem option_length_field (bld : DHCPDgramBuilder) (code : Nat)
    (data big : List Nat) (p q : PXEOption)
    (h1 : data.length ≤ 255) (h2 : p.data.length ≤ 255)
    (h3 : 255 < big.length) (h4 : 255 < q.data.length) :
    (∀ (bld' : DHCPDgramBuilder) (code' : Nat) (data' : List Nat),
      (bld'.option code' data').options.getLast?
        = some ⟨code', data'.length % 256, data'⟩) ∧
    (∀ r : PXEOption, r.len = r.data.length % 256) ∧
    (bld.option code data).options.getLast? = some ⟨code, data.length, data⟩ ∧
    p.len = p.data.length ∧
    (bld.option code big).options.getLast? = some ⟨code, big.length % 256, big⟩ ∧
    big.length % 256 ≠ big.length ∧
    q.len ≠ q.data.length := by
  have hgen : ∀ (bld' : DHCPDgramBuilder) (code' : Nat) (data' : List Nat),
      (bld'.option code' data').options.getLast?
        = some ⟨code', data'.length % 256, data'⟩ := by
    intro bld' code' data'
    simp [DHCPDgramBuilder.option]
  have m1 : data.length % 256 = data.length := Nat.mod_eq_of_lt (by omega)
  have m2 : p.data.length % 256 = p.data.length := Nat.mod_eq_of_lt (by omega)
  have m3 : big.length % 256 ≠ big.length := by
    have := Nat.mod_lt big.length (show 0 < 256 by norm_num)
    omega
  have m4 : q.data.length % 256 ≠ q.data.length := by
    have := Nat.mod_lt q.data.length (show 0 < 256 by norm_num)
    omega
  refine ⟨hgen, fun r => rfl, ?_, ?_, hgen bld code big, m3, ?_⟩
  · rw [hgen bld code data, m1]
  · show p.data.length % 256 = p.data.length
    exact m2
  · show q.data.length % 256 ≠ q.data.length
    exact m4

/-- C8 witness: concrete in-range data (3 and 1 octets) where the stored
length equals the count, and concrete over-255 data (256 and 300 octets)
where the stored length wraps and differs from the count. -/
theorem option_length_field_witness :
    ((DHCPDgramBuilder.mk none []).option 5 [1, 2, 3]).options.getLast?
      = some ⟨5, [1, 2, 3].length, [1, 2, 3]⟩ ∧
    PXEOption.len ⟨8, [9]⟩ = [9].length ∧
    ((DHCPDgramBuilder.mk none []).option 5 (List.replicate 256 7)).options.getLast?
      = some ⟨5, (List.replicate 256 7).length % 256, List.replicate 256 7⟩ ∧
    (List.replicate 256 7).length % 256 ≠ (List.replicate 256 7).length ∧
    PXEOption.len ⟨1, List.replicate 300 2⟩ ≠ (List.replicate 300 2).length :=
  have h := option_length_field (DHCPDgramBuilder.mk none []) 5 [1, 2, 3]
    (List.replicate 256 7) ⟨8, [9]⟩ ⟨1, List.replicate 300 2⟩
    (by norm_num) (by norm_num) (by simp) (by simp)
  ⟨h.2.2.1, h.2.2.2.1, h.2.2.2.2.1, h.2.2.2.2.2.1, h.2.2.2.2.2.2⟩

/-- C8 counterexample: for 256 octets of data the stored length byte wraps to
0 (`data.len() as u8`), so it does not equal the number of value octets; the
same truncation happens in `PXEOption::len` for 300 octets. -/
theorem option_length_field_ce :
    ((DHCPDgramBuilder.mk none []).option 5 (List.replicate 256 7)).options
      = [⟨5, 0, List.replicate 256 7⟩] ∧
    (0 : Nat) ≠ (List.replicate 256 7).length ∧
    PXEOption.len ⟨1, List.replicate 300 2⟩ ≠ (List.replicate 300 2).length := by
  refine ⟨?_, by simp, ?_⟩
  · simp [DHCPDgramBuilder.option]
  · simp [PXEOption.len]

/-- C2 (amended): for a datagram carrying option 53 = [DISCOVER], `discover`
returns a reply whose body is the incoming body with `op` set to
BOOT_REPLY (2), the first 9 bytes of `sname` overwritten with "PXEServer" and
the first 10 bytes of `filename` overwritten with "pxelinux.0" (the
remainders keep the incoming bytes; they are not NUL-padded), and whose
options are, in order: 53 = [OFFER], 54 = the server IPv4, 60 = "PXEClient",
43 = the PXE vendor block, end marker. -/
theorem discover_offer (addr : List Nat) (dhcp : DHCPDgram)
    (ha : addr.length = 4)
    (hs : dhcp.body.sname.length = 64)
    (hf : dhcp.body.filename.length = 128)
    (_h53 : dhcp.option 53 = some [1]) :
    ∃ d, discover addr dhcp = some d ∧
      d.body = { dhcp.body with
                   op := 2,
                   sname := pxeServerName ++ dhcp.body.sname.drop 9,
                   filename := bootfileName ++ dhcp.body.filename.drop 10 } ∧
      d.options = [⟨53, 1, [2]⟩, ⟨54, 4, addr⟩, ⟨60, 9, pxeClientId⟩,
                   ⟨43, 13, [6, 1, 14, 8, 7, 0, 0, 1] ++ addr ++ [255]⟩,
                   ⟨255, 0, []⟩] := by
  have hpxe : ((((PXEBuilder.mk []).start false).boot_servers [addr]).endMarker).build
      = [6, 1, 14, 8, 7, 0, 0, 1] ++ addr ++ [255] := by
    simp [PXEBuilder.build, PXEBuilder.start, PXEBuilder.boot_servers,
          PXEBuilder.endMarker, PXEBuilder.option, PXEOption.len, ha]
  have hsn : copy_string pxeServerName dhcp.body.sname
      = pxeServerName ++ dhcp.body.sname.drop 9 := by
    unfold copy_string
    rw [List.take_of_length_le (by rw [hs]; decide),
        show pxeServerName.length = 9 from rfl]
  have hfn : copy_string bootfileName dhcp.body.filename
      = bootfileName ++ dhcp.body.filename.drop 10 := by
    unfold copy_string
    rw [List.take_of_length_le (by rw [hf]; decide),
        show bootfileName.length = 10 from rfl]
  refine ⟨_, rfl, ?_, ?_⟩
  · show ({ dhcp.body with
              op := 2,
              sname := copy_string pxeServerName dhcp.body.sname,
              filename := copy_string bootfileName dhcp.body.filename } : DHCPBody) = _
    rw [hsn, hfn]
  · show (((((((DHCPDgramBuilder.mk none []).body _).option 53 [2]).option 54
        addr).option 60 pxeClientId).option 43 _).endMarker).options = _
    simp only [DHCPDgramBuilder.option, DHCPDgramBuilder.body,
               DHCPDgramBuilder.endMarker, hpxe]
    simp [ha, List.length_append, show pxeClientId.length % 256 = 9 from by decide]

/-- A concrete inbound DISCOVER whose `sname` bytes are all 0xAA. -/
def discoverSnameAA : DHCPDgram :=
  ⟨{ op := 1, htype := 1, hlen := 6, hops := 0, xid := [0, 0, 0, 0],
     secs := [0, 0], flags := [0, 0], ciaddr := [0, 0, 0, 0],
     yiaddr := [0, 0, 0, 0], siaddr := [0, 0, 0, 0], giaddr := [0, 0, 0, 0],
     chaddr := List.replicate 16 0, sname := List.replicate 64 170,
     filename := List.replicate 128 0, mcookie := [99, 130, 83, 99] },
   [⟨53, 1, [1]⟩]⟩

/-- C2 witness: the amended statement at a concrete DISCOVER and server
address 192.168.1.103. -/
theorem discover_offer_witness :
    ∃ d, discover [192, 168, 1, 103] discoverSnameAA = some d ∧
      d.body = { discoverSnameAA.body with
                   op := 2,
                   sname := pxeServerName ++ discoverSnameAA.body.sname.drop 9,
                   filename := bootfileName ++ discoverSnameAA.body.filename.drop 10 } ∧
      d.options = [⟨53, 1, [2]⟩, ⟨54, 4, [192, 168, 1, 103]⟩, ⟨60, 9, pxeClientId⟩,
                   ⟨43, 13, [6, 1, 14, 8, 7, 0, 0, 1] ++ [192, 168, 1, 103] ++ [255]⟩,
                   ⟨255, 0, []⟩] :=
  discover_offer [192, 168, 1, 103] discoverSnameAA
    (by decide) (by decide) (by decide) (by decide)

/-- C2 counterexample: for an incoming datagram with option 53 = [DISCOVER]
whose `sname` bytes are 0xAA, the reply's `sname` is not "PXEServer" followed
by NUL padding — the 55 bytes after "PXEServer" keep the incoming 0xAA
bytes, because `copy_string` only overwrites positions covered by the
source string. -/
theorem discover_offer_ce :
    ∃ d, discover [192, 168, 1, 103] discoverSnameAA = some d ∧
      d.body.sname ≠ pxeServerName ++ List.replicate 55 0 := by
  refine ⟨_, rfl, ?_⟩
  decide

/-- Embeds `next_block` of a finished transfer does nothing. -/
theorem next_block_done_eq (t : TFTPTransfer) (h : t.done = true) :
    t.next_block = (none, t) := by
  simp [TFTPTransfer.next_block, h]

/-- Embeds `next_block` on a live transfer whose remaining file is shorter than the
block size: the whole remainder is served, `done` is set. -/
theorem next_block_short (c s : Nat) (l : List Nat) (h : l.length < s) :
    TFTPTransfer.next_block ⟨c, s, false, l⟩ =
      (some l, ⟨(c + 1) % 65536, s, true, []⟩) := by
  have hmin : min s l.length = l.length := Nat.min_eq_right (Nat.le_of_lt h)
  simp [TFTPTransfer.next_block, hmin, bne_iff_ne]
  omega

/-- Embeds `next_block` on a live transfer with at least a full block remaining. -/
theorem next_block_full (c s : Nat) (l : List Nat) (h : s ≤ l.length) :
    TFTPTransfer.next_block ⟨c, s, false, l⟩ =
      (some (l.take s), ⟨(c + 1) % 65536, s, false, l.drop s⟩) := by
  have hmin : min s l.length = s := Nat.min_eq_left h
  simp [TFTPTransfer.next_block, hmin]

/-- Embeds `pump` of a finished transfer produces nothing. -/
theorem pump_done_eq (t : TFTPTransfer) (fuel : Nat) (h : t.done = true) :
    pump t fuel = ([], t) := by
  cases fuel with
  | zero => rfl
  | succ n => simp [pump, next_block_done_eq t h]

/-- Unfolding `chunks` when the input is shorter than the block size. -/
theorem chunks_short (sz : Nat) (l : List Nat) (h : l.length < sz) :
    chunks sz l = [l] := by
  rw [chunks.eq_def, dif_pos (Or.inr h)]

/-- Unfolding `chunks` when at least one full block remains. -/
theorem chunks_step (sz : Nat) (l : List Nat) (hs : 0 < sz) (h : sz ≤ l.length) :
    chunks sz l = l.take sz :: chunks sz (l.drop sz) := by
  conv_lhs => rw [chunks.eq_def]
  rw [dif_neg (by omega)]

/-- Embeds `chunks` is never empty. -/
theorem chunks_length_pos (sz : Nat) (l : List Nat) : 0 < (chunks sz l).length := by
  rw [chunks.eq_def]
  split <;> simp

/-- Concatenating the chunks of a file recovers the file. -/
theorem chunks_flatten_aux (sz : Nat) (hs : 0 < sz) (n : Nat) :
    ∀ l : List Nat, l.length ≤ n → (chunks sz l).flatten = l := by
  induction n with
  | zero =>
    intro l hl
    have hnil : l = [] := List.eq_nil_of_length_eq_zero (Nat.le_zero.mp hl)
    subst hnil
    rw [chunks_short sz [] (by simpa using hs)]
    simp
  | succ n ih =>
    intro l hl
    by_cases hcase : l.length < sz
    · rw [chunks_short sz l hcase]; simp
    · have hle : sz ≤ l.length := Nat.le_of_not_lt hcase
      rw [chunks_step sz l hs hle]
      simp only [List.flatten_cons]
      rw [ih (l.drop sz) (by simp [List.length_drop]; omega)]
      exact List.take_append_drop sz l

/-- Every chunk except the last has exactly `sz` bytes; the last is strictly
shorter. -/
theorem chunks_sizes_aux (sz : Nat) (hs : 0 < sz) (n : Nat) :
    ∀ l : List Nat, l.length ≤ n → ∀ i b, (chunks sz l)[i]? = some b →
      (if i + 1 = (chunks sz l).length then b.length < sz else b.length = sz) := by
  induction n with
  | zero =>
    intro l hl i b hib
    have hnil : l = [] := List.eq_nil_of_length_eq_zero (Nat.le_zero.mp hl)
    subst hnil
    rw [chunks_short sz [] (by simpa using hs)] at hib ⊢
    cases i with
    | zero =>
      simp at hib
      subst hib
      simpa using hs
    | succ j => simp at hib
  | succ n ih =>
    intro l hl i b hib
    by_cases hcase : l.length < sz
    · rw [chunks_short sz l hcase] at hib ⊢
      cases i with
      | zero =>
        simp at hib
        subst hib
        simpa using hcase
      | succ j => simp at hib
    · have hle : sz ≤ l.length := Nat.le_of_not_lt hcase
      rw [chunks_step sz l hs hle] at hib ⊢
      cases i with
      | zero =>
        simp only [List.getElem?_cons_zero, Option.some.injEq] at hib
        subst hib
        simp only [List.length_cons]
        rw [if_neg (by have := chunks_length_pos sz (l.drop sz); omega)]
        simp [List.length_take]
        omega
      | succ j =>
        simp only [List.getElem?_cons_succ] at hib
        have hres := ih (l.drop sz) (by simp [List.length_drop]; omega) j b hib
        simp only [List.length_cons]
        rw [if_congr (by omega : (j + 1 + 1 = (chunks sz (l.drop sz)).length + 1)
          ↔ (j + 1 = (chunks sz (l.drop sz)).length)) rfl rfl]
        exact hres

/-- Pumping a live transfer with enough fuel produces exactly the chunks of
the remaining file, with block numbers successively incremented modulo
2^16, and ends with `done` set. -/
theorem pump_run (fuel : Nat) :
    ∀ (l : List Nat) (s c : Nat), 0 < s → (chunks s l).length ≤ fuel →
      (pump ⟨c, s, false, l⟩ fuel).1.map Prod.snd = chunks s l ∧
      (pump ⟨c, s, false, l⟩ fuel).1.map Prod.fst =
        (List.range (chunks s l).length).map (fun i => (c + i + 1) % 65536) ∧
      (pump ⟨c, s, false, l⟩ fuel).2.done = true := by
  induction fuel with
  | zero =>
    intro l s c hs hlen
    exact absurd hlen (by have := chunks_length_pos s l; omega)
  | succ n ih =>
    intro l s c hs hlen
    by_cases hcase : l.length < s
    · have hpump : pump ⟨c, s, false, l⟩ (n + 1) =
          ([((c + 1) % 65536, l)], ⟨(c + 1) % 65536, s, true, []⟩) := by
        have hdone := pump_done_eq (⟨(c + 1) % 65536, s, true, []⟩ : TFTPTransfer) n rfl
        simp [pump, next_block_short c s l hcase, hdone]
      rw [hpump, chunks_short s l hcase]
      refine ⟨by simp, ?_, rfl⟩
      rw [show ([l] : List (List Nat)).length = 1 from rfl,
          show List.range 1 = [0] from rfl]
      simp
    · have hle : s ≤ l.length := Nat.le_of_not_lt hcase
      have hlen' : (chunks s (l.drop s)).length ≤ n := by
        rw [chunks_step s l hs hle] at hlen
        simpa using hlen
      obtain ⟨ih1, ih2, ih3⟩ := ih (l.drop s) s ((c + 1) % 65536) hs hlen'
      have hpump : pump ⟨c, s, false, l⟩ (n + 1) =
          (((c + 1) % 65536, l.take s) ::
             (pump ⟨(c + 1) % 65536, s, false, l.drop s⟩ n).1,
           (pump ⟨(c + 1) % 65536, s, false, l.drop s⟩ n).2) := by
        simp [pump, next_block_full c s l hle]
      rw [hpump, chunks_step s l hs hle]
      refine ⟨by simp [ih1], ?_, ih3⟩
      simp only [List.map_cons, ih2, List.length_cons, List.range_succ_eq_map,
                 List.map_map, List.cons.injEq]
      refine ⟨by simp, ?_⟩
      apply List.map_congr_left
      intro i _
      simp only [Function.comp_apply]
      omega

/-- C5: for a transfer with positive block size over a file of known
contents, successive ACKs produce the file's `block_sz`-chunks in order with
block numbers incrementing by one (wrapping at 2^16); the concatenation of
all payloads equals the file contents; every block except the last is a full
`block_sz`-byte slice and the last is strictly shorter (possibly empty), at
which point `done` is set.  In particular a 10-byte file with `block_sz` = 4
yields blocks (1, 4 bytes), (2, 4 bytes), (3, 2 bytes). -/
theorem tftp_block_sequencing (l : List Nat) (s c fuel : Nat) (hs : 0 < s)
    (hf : (chunks s l).length ≤ fuel) :
    (pump ⟨c, s, false, l⟩ fuel).1.map Prod.snd = chunks s l ∧
    (pump ⟨c, s, false, l⟩ fuel).1.map Prod.fst =
      (List.range (chunks s l).length).map (fun i => (c + i + 1) % 65536) ∧
    (pump ⟨c, s, false, l⟩ fuel).2.done = true ∧
    ((pump ⟨c, s, false, l⟩ fuel).1.map Prod.snd).flatten = l ∧
    (∀ i b, (chunks s l)[i]? = some b →
      if i + 1 = (chunks s l).length then b.length < s else b.length = s) ∧
    pump ⟨0, 4, false, [10, 11, 12, 13, 14, 15, 16, 17, 18, 19]⟩ 3 =
      ([(1, [10, 11, 12, 13]), (2, [14, 15, 16, 17]), (3, [18, 19])],
       ⟨3, 4, true, []⟩) := by
  obtain ⟨h1, h2, h3⟩ := pump_run fuel l s c hs hf
  exact ⟨h1, h2, h3, by rw [h1]; exact chunks_flatten_aux s hs l.length l le_rfl,
         chunks_sizes_aux s hs l.length l le_rfl, by decide⟩

/-- C5 witness: the 10-byte file with block size 4 (binder-free components of
the theorem's conclusion at that input). -/
theorem tftp_block_sequencing_witness :
    (pump ⟨0, 4, false, [10, 11, 12, 13, 14, 15, 16, 17, 18, 19]⟩ 3).1.map Prod.snd
      = chunks 4 [10, 11, 12, 13, 14, 15, 16, 17, 18, 19] ∧
    (pump ⟨0, 4, false, [10, 11, 12, 13, 14, 15, 16, 17, 18, 19]⟩ 3).2.done = true ∧
    pump ⟨0, 4, false, [10, 11, 12, 13, 14, 15, 16, 17, 18, 19]⟩ 3 =
      ([(1, [10, 11, 12, 13]), (2, [14, 15, 16, 17]), (3, [18, 19])],
       ⟨3, 4, true, []⟩) :=
  have h := tftp_block_sequencing [10, 11, 12, 13, 14, 15, 16, 17, 18, 19] 4 0 3
    (by norm_num)
    (by rw [chunks_step 4 _ (by norm_num) (by norm_num),
            chunks_step 4 _ (by norm_num) (by norm_num),
            chunks_short 4 _ (by norm_num)]
        decide)
  ⟨h.1, h.2.2.1, h.2.2.2.2.2⟩

/-- C10: a transfer created with `block_sz` = 0 (as an RRQ carrying blksize
option value "0" produces, since `"0".parse::<u16>()` succeeds with 0) never
finishes: `next_block` returns an empty block and leaves `done` false with
the file position unmoved, so any number of ACKs yields only empty data
blocks and `done` is never set — end of file is never signalled. -/
theorem tftp_zero_blocksize (t : TFTPTransfer) (fuel : Nat)
    (hs : t.block_sz = 0) (hd : t.done = false) :
    t.next_block = (some [], { t with block_cnt := (t.block_cnt + 1) % 65536 }) ∧
    (∀ p ∈ (pump t fuel).1, p.2 = ([] : List Nat)) ∧
    (pump t fuel).2.done = false := by
  obtain ⟨c, s, d, f⟩ := t
  simp only at hs hd
  subst hs
  subst hd
  have hnb : ∀ c' : Nat, TFTPTransfer.next_block ⟨c', 0, false, f⟩ =
      (some [], ⟨(c' + 1) % 65536, 0, false, f⟩) := by
    intro c'
    simp [TFTPTransfer.next_block]
  refine ⟨hnb c, ?_⟩
  induction fuel generalizing c with
  | zero => simp [pump]
  | succ n ih =>
    obtain ⟨ih1, ih2⟩ := ih ((c + 1) % 65536)
    constructor
    · intro p hp
      simp only [pump, hnb c] at hp
      rcases List.mem_cons.mp hp with h | h
      · rw [h]
      · exact ih1 p h
    · simp only [pump, hnb c]
      exact ih2

/-- C10 witness: a zero-block-size transfer over a 2-byte file, pumped five
times. -/
theorem tftp_zero_blocksize_witness :
    TFTPTransfer.next_block ⟨0, 0, false, [5, 6]⟩ =
      (some [], { (⟨0, 0, false, [5, 6]⟩ : TFTPTransfer) with
                    block_cnt := (0 + 1) % 65536 }) ∧
    (pump ⟨0, 0, false, [5, 6]⟩ 5).2.done = false :=
  ⟨(tftp_zero_blocksize ⟨0, 0, false, [5, 6]⟩ 5 rfl rfl).1,
   (tftp_zero_blocksize ⟨0, 0, false, [5, 6]⟩ 5 rfl rfl).2.2⟩

/-- Removing a key by filtering leaves no entry under that key. -/
theorem lookup_filter_ne (ep : Nat) (l : List (Nat × TFTPTransfer)) :
    List.lookup ep (l.filter (fun p => p.1 != ep)) = none := by
  induction l with
  | nil => rfl
  | cons hd tl ih =>
    obtain ⟨k, v⟩ := hd
    by_cases h : k = ep
    · simp [List.filter_cons, h, ih]
    · have hb : ((k, v).1 != ep) = true := by simpa [bne_iff_ne] using h
      have hbeq : (ep == k) = false :=
        beq_eq_false_iff_ne.mpr (fun he => h he.symm)
      rw [List.filter_cons, if_pos hb]
      simp [List.lookup, hbeq, ih]

/-- C4 (amended): when the transfer stored for an endpoint has its `done`
flag set, the next ACK from that endpoint removes the entry from the table,
but the server sends no reply at all: `send_next` returns `Err("Transfer
finished.")`, which the `?` in `listen` propagates past the `send_to` call,
and `start` discards the error.  No error response reaches the client. -/
theorem tftp_done_ack_removes (srv : TFTPServer) (ep : Nat) (t : TFTPTransfer)
    (hl : List.lookup ep srv.transfers = some t) (hd : t.done = true) :
    TFTPServer.listen_ack srv ep =
      (⟨srv.transfers.filter (fun p => p.1 != ep)⟩, none) ∧
    List.lookup ep (srv.transfers.filter (fun p => p.1 != ep)) = none := by
  have hsend : srv.send_next ep =
      (none, ⟨srv.transfers.filter (fun p => p.1 != ep)⟩) := by
    unfold TFTPServer.send_next
    rw [hl]
    simp [hd]
  constructor
  · unfold TFTPServer.listen_ack
    rw [hsend]
  · exact lookup_filter_ne ep srv.transfers

/-- C4 witness: a one-entry table whose transfer is done. -/
theorem tftp_done_ack_removes_witness :
    TFTPServer.listen_ack ⟨[(9, ⟨1, 4, true, [5]⟩)]⟩ 9 =
      (⟨[((9 : Nat), (⟨1, 4, true, [5]⟩ : TFTPTransfer))].filter
          (fun p => p.1 != 9)⟩, none) ∧
    List.lookup 9 ([((9 : Nat), (⟨1, 4, true, [5]⟩ : TFTPTransfer))].filter
        (fun p => p.1 != 9)) = none :=
  tftp_done_ack_removes ⟨[(9, ⟨1, 4, true, [5]⟩)]⟩ 9 ⟨1, 4, true, [5]⟩ (by decide) rfl

/-- C4 counterexample: the claim says the server replies with an error
response; on a concrete table with a finished transfer at endpoint 7, the ACK
handler removes the entry but produces no reply packet at all. -/
theorem tftp_done_ack_removes_ce :
    (TFTPServer.listen_ack ⟨[(7, ⟨2, 512, true, []⟩)]⟩ 7).2 = none ∧
    (TFTPServer.listen_ack ⟨[(7, ⟨2, 512, true, []⟩)]⟩ 7).1.transfers = [] := by
  decide
